import Mathlib

/-!
# Verification of the harmony-coach music analysis pipeline

Shallow embedding of the music-theory tables, chord recognizer,
key detector, melody extractor, chord labeler, harmony generator and
audio-frame utilities of the repository, together with proofs settling
the specification claims C1 through C10.

Conventions of the embedding:
* JavaScript numbers used as exact quantities (times, beats, confidences,
  tempi) are modelled as rationals; quantities produced by transcendental
  functions (`Math.pow`, `Math.log2`, `Math.sqrt`) are modelled as reals.
* JavaScript `%` on integers is `Int.tmod` (truncated remainder) and
  `Math.floor` of an integer quotient is `Int.fdiv`.
* `Math.round x` is `⌊x + 1/2⌋` (round half toward positive infinity).
* JavaScript `Array.prototype.sort` (guaranteed stable) is modelled by a
  stable insertion sort with the same comparator.
-/

namespace HarmonyCoach

/-- The 12 canonical note names, chromatic order (sharps-based), from
`NOTE_NAMES` in `music-utils`. -/
inductive NoteName where
  | C | Cs | D | Ds | E | F | Fs | G | Gs | A | As | B
  deriving DecidableEq, Repr

/-- `NOTE_NAMES`: all 12 note names in chromatic order. -/
def NOTE_NAMES : List NoteName :=
  [.C, .Cs, .D, .Ds, .E, .F, .Fs, .G, .Gs, .A, .As, .B]

/-- Display string of a canonical note name (sharp spelling). -/
def noteNameStr : NoteName → String
  | .C => "C" | .Cs => "C#" | .D => "D" | .Ds => "D#" | .E => "E" | .F => "F"
  | .Fs => "F#" | .G => "G" | .Gs => "G#" | .A => "A" | .As => "A#" | .B => "B"

/-- JavaScript `Array.prototype.indexOf`: first index of `a` in `l`,
`-1` when absent. -/
def jsIndexOf {α : Type} [DecidableEq α] (l : List α) (a : α) : ℤ :=
  match l with
  | [] => -1
  | b :: t =>
    if b = a then 0
    else
      let r := jsIndexOf t a
      if r = -1 then -1 else r + 1

/-- First index of `a` in `l` as an `Option` (helper used to relate
`jsIndexOf` to membership). -/
def firstIdx {α : Type} [DecidableEq α] (l : List α) (a : α) : Option ℕ :=
  match l with
  | [] => none
  | b :: t => if b = a then some 0 else (firstIdx t a).map (· + 1)

/-- Key mode: major or minor. -/
inductive Mode where
  | major | minor
  deriving DecidableEq, Repr

/-- `Key`: tonic, mode and display label. -/
structure Key where
  tonic : NoteName
  mode : Mode
  label : String
  deriving DecidableEq, Repr

/-- The closed enumeration of chord qualities. -/
inductive ChordQuality where
  | major | minor | diminished | augmented
  | dominant7 | major7 | minor7 | diminished7 | halfDiminished7
  | sus2 | sus4
  deriving DecidableEq, Repr

/-- `Math.round` on an exact rational: `⌊x + 1/2⌋`, JavaScript
round-half-up semantics. -/
def jsRound (q : ℚ) : ℤ := ⌊q + 1 / 2⌋

-- ── music-utils: note/MIDI/frequency conversions ──

/-- `midiToFrequency`: `440 * 2 ^ ((midi - 69) / 12)` (MIDI 69 = A4 = 440Hz). -/
noncomputable def midiToFrequency (midi : ℤ) : ℝ :=
  440 * (2 : ℝ) ^ (((midi : ℝ) - 69) / 12)

/-- `Math.round` on a real: `⌊x + 1/2⌋`. -/
noncomputable def jsRoundR (x : ℝ) : ℤ := ⌊x + 1 / 2⌋

/-- `frequencyToMidi`: `Math.round(69 + 12 * Math.log2(freq / 440))`. -/
noncomputable def frequencyToMidi (freq : ℝ) : ℤ :=
  jsRoundR (69 + 12 * Real.logb 2 (freq / 440))

/-- `noteToMidi(name, octave) = (octave + 1) * 12 + NOTE_NAMES.indexOf(name)`. -/
def noteToMidi (name : NoteName) (octave : ℤ) : ℤ :=
  (octave + 1) * 12 + jsIndexOf NOTE_NAMES name

/-- `midiToNote`: note index `((midi % 12) + 12) % 12` (JavaScript `%` is
truncated remainder), octave `Math.floor(midi / 12) - 1`. -/
def midiToNote (midi : ℤ) : NoteName × ℤ :=
  let noteIndex := (Int.tmod midi 12 + 12).tmod 12
  let octave := Int.fdiv midi 12 - 1
  (NOTE_NAMES.getD noteIndex.toNat .C, octave)

/-- `transpose(name, semitones)`: index `((index + semitones) % 12 + 12) % 12`
into `NOTE_NAMES`. -/
def transpose (name : NoteName) (semitones : ℤ) : NoteName :=
  let index := jsIndexOf NOTE_NAMES name
  let newIndex := ((index + semitones).tmod 12 + 12).tmod 12
  NOTE_NAMES.getD newIndex.toNat .C

/-- `intervalInSemitones(from, to) = ((toIndex - fromIndex) + 12) % 12`. -/
def intervalInSemitones (src dst : NoteName) : ℤ :=
  let fromIndex := jsIndexOf NOTE_NAMES src
  let toIndex := jsIndexOf NOTE_NAMES dst
  ((toIndex - fromIndex) + 12).tmod 12

-- ── theory.ts: scales, chords, key profiles ──

/-- `SCALE_INTERVALS` lookup by the string keys used in the source. -/
def SCALE_INTERVALS (scaleType : String) : Option (List ℤ) :=
  if scaleType = "major" then some [0, 2, 4, 5, 7, 9, 11]
  else if scaleType = "natural_minor" then some [0, 2, 3, 5, 7, 8, 10]
  else if scaleType = "harmonic_minor" then some [0, 2, 3, 5, 7, 8, 11]
  else if scaleType = "melodic_minor" then some [0, 2, 3, 5, 7, 9, 11]
  else if scaleType = "dorian" then some [0, 2, 3, 5, 7, 9, 10]
  else if scaleType = "mixolydian" then some [0, 2, 4, 5, 7, 9, 10]
  else if scaleType = "pentatonic_major" then some [0, 2, 4, 7, 9]
  else if scaleType = "pentatonic_minor" then some [0, 3, 5, 7, 10]
  else none

/-- `getScaleNotes(root, scaleType)`: transpose the root by each scale
interval; unknown scale types fall back to the major intervals. -/
def getScaleNotes (root : NoteName) (scaleType : String) : List NoteName :=
  let intervals := (SCALE_INTERVALS scaleType).getD [0, 2, 4, 5, 7, 9, 11]
  intervals.map (transpose root)

/-- `CHORD_INTERVALS`: semitone intervals from the root for each quality. -/
def CHORD_INTERVALS : ChordQuality → List ℤ
  | .major => [0, 4, 7]
  | .minor => [0, 3, 7]
  | .diminished => [0, 3, 6]
  | .augmented => [0, 4, 8]
  | .dominant7 => [0, 4, 7, 10]
  | .major7 => [0, 4, 7, 11]
  | .minor7 => [0, 3, 7, 10]
  | .diminished7 => [0, 3, 6, 9]
  | .halfDiminished7 => [0, 3, 6, 10]
  | .sus2 => [0, 2, 7]
  | .sus4 => [0, 5, 7]

/-- `getChordNotes(root, quality)`: the chord's pitch classes. -/
def getChordNotes (root : NoteName) (quality : ChordQuality) : List NoteName :=
  (CHORD_INTERVALS quality).map (transpose root)

/-- `MAJOR_KEY_PROFILE` (Krumhansl-Schmuckler weights). -/
def MAJOR_KEY_PROFILE : List ℚ :=
  [6.35, 2.23, 3.48, 2.33, 4.38, 4.09, 2.52, 5.19, 2.39, 3.66, 2.29, 2.88]

/-- `MINOR_KEY_PROFILE` (Krumhansl-Schmuckler weights). -/
def MINOR_KEY_PROFILE : List ℚ :=
  [6.33, 2.68, 3.52, 5.38, 2.60, 3.53, 2.54, 4.75, 3.98, 2.69, 3.34, 3.17]

/-- `rotateArray(arr, n)`: rotate right by `n` (mod length), via
`shift = ((n % len) + len) % len` and the two slices. -/
def rotateArray {α : Type} (arr : List α) (n : ℤ) : List α :=
  let len : ℤ := arr.length
  let shift := ((n.tmod len) + len).tmod len
  arr.drop (arr.length - shift.toNat) ++ arr.take (arr.length - shift.toNat)

-- ── Data model ──

/-- Chord-tone role assigned to a melody note. -/
inductive ChordTone where
  | root | third | fifth | seventh | nonChord
  deriving DecidableEq, Repr

/-- `Note`: name, octave, MIDI number, frequency, duration and start in beats. -/
structure Note where
  name : NoteName
  octave : ℤ
  midiNumber : ℤ
  frequency : ℝ
  duration : ℚ
  startBeat : ℚ

/-- `MelodyNote`: a `Note` plus detection confidence and the optional
chord-tone role. -/
structure MelodyNote where
  name : NoteName
  octave : ℤ
  midiNumber : ℤ
  frequency : ℝ
  duration : ℚ
  startBeat : ℚ
  confidence : ℚ
  chordTone : Option ChordTone

/-- `PitchFrame`: one pitch-detection frame; `note = none` marks
silence/unvoiced. -/
structure PitchFrame where
  frequency : ℚ
  clarity : ℚ
  note : Option NoteName
  octave : Option ℤ
  centsOff : ℤ
  timestamp : ℚ
  deriving DecidableEq, Repr

/-- `Chord`: root, quality, symbol, pitch classes, beat position/duration. -/
structure Chord where
  root : NoteName
  quality : ChordQuality
  symbol : String
  notes : List NoteName
  startBeat : ℚ
  duration : ℚ
  deriving DecidableEq, Repr

/-- `ChordWithFunction`: a `Chord` plus its Roman-numeral label. -/
structure ChordWithFunction where
  root : NoteName
  quality : ChordQuality
  symbol : String
  notes : List NoteName
  startBeat : ℚ
  duration : ℚ
  romanNumeral : String
  deriving DecidableEq, Repr

-- ── melody-extractor.ts ──

/-- `quantizeMelody(notes, subdivision)`: snap `startBeat` to the nearest
multiple of `grid = 1/subdivision` and `duration` to the nearest multiple
floored at one grid unit. -/
def quantizeMelody (notes : List MelodyNote) (subdivision : ℚ := 4) :
    List MelodyNote :=
  let grid := 1 / subdivision
  notes.map fun note =>
    let quantizedStart := (jsRound (note.startBeat / grid) : ℚ) * grid
    let quantizedDuration := max grid ((jsRound (note.duration / grid) : ℚ) * grid)
    { note with startBeat := quantizedStart, duration := quantizedDuration }

/-- A note segment produced by `groupIntoSegments` (averages omitted:
no claim depends on them). -/
structure NoteSegment where
  note : NoteName
  octave : ℤ
  startTime : ℚ
  endTime : ℚ
  frames : List PitchFrame
  deriving DecidableEq, Repr

/-- Loop body of `groupIntoSegments`: a null-note frame closes the open
segment, a same-(note, octave) frame extends it, a different note closes
and opens a new one. -/
def groupGo : List PitchFrame → Option NoteSegment → List NoteSegment
  | [], current =>
    match current with
    | none => []
    | some c => [c]
  | frame :: rest, current =>
    match frame.note, frame.octave with
    | some n, some o =>
      match current with
      | some c =>
        if c.note = n ∧ c.octave = o then
          groupGo rest (some { c with endTime := frame.timestamp,
                                      frames := c.frames ++ [frame] })
        else
          c :: groupGo rest (some ⟨n, o, frame.timestamp, frame.timestamp, [frame]⟩)
      | none =>
        groupGo rest (some ⟨n, o, frame.timestamp, frame.timestamp, [frame]⟩)
    | _, _ =>
      match current with
      | some c => c :: groupGo rest none
      | none => groupGo rest none

/-- `groupIntoSegments(frames)`: group consecutive same-note frames. -/
def groupIntoSegments (frames : List PitchFrame) : List NoteSegment :=
  groupGo frames none

instance : Inhabited NoteSegment := ⟨⟨.C, 0, 0, 0, []⟩⟩

/-- The inter-onset intervals collected by `estimateTempo`: differences of
consecutive segment start times, kept when strictly between 150 and 2000 ms. -/
def collectIOIs (segments : List NoteSegment) : List ℚ :=
  ((List.range (segments.length - 1)).map fun i =>
      (segments.getD (i + 1) default).startTime - (segments.getD i default).startTime
    ).filter fun ioi => 150 < ioi ∧ ioi < 2000

/-- The `while (bpm < 60) bpm *= 2` loop, with an explicit iteration bound
(the source loop terminates on every value it is reached with, see
`estimateTempo_spec`). -/
def doubleWhileBelow60 : ℕ → ℚ → ℚ
  | 0, bpm => bpm
  | fuel + 1, bpm => if bpm < 60 then doubleWhileBelow60 fuel (bpm * 2) else bpm

/-- The `while (bpm > 180) bpm /= 2` loop, with an explicit iteration bound. -/
def halveWhileAbove180 : ℕ → ℚ → ℚ
  | 0, bpm => bpm
  | fuel + 1, bpm => if 180 < bpm then halveWhileAbove180 fuel (bpm / 2) else bpm

/-- The median inter-onset interval: sort ascending, take index `⌊len/2⌋`. -/
def medianIOI (iois : List ℚ) : ℚ :=
  (iois.mergeSort (fun a b => decide (a ≤ b))).getD (iois.length / 2) 0

/-- `estimateTempo(frames)`: fewer than 3 segments or no valid inter-onset
interval gives the 120 BPM default; otherwise `round(60000 / medianIOI)`
after octave correction into [60, 180]. -/
def estimateTempo (frames : List PitchFrame) : ℤ :=
  let segments := groupIntoSegments frames
  if segments.length < 3 then 120
  else
    let iois := collectIOIs segments
    if iois = [] then 120
    else
      let median := medianIOI iois
      let bpm := 60000 / median
      jsRound (halveWhileAbove180 64 (doubleWhileBelow60 64 bpm))

-- ── chord-labeler.ts ──

/-- The uppercase Roman-numeral table. -/
def ROMAN_NUMERALS_UPPER : List String :=
  ["I", "II", "III", "IV", "V", "VI", "VII"]

/-- The lowercase Roman-numeral table. -/
def ROMAN_NUMERALS_LOWER : List String :=
  ["i", "ii", "iii", "iv", "v", "vi", "vii"]

/-- `QUALITY_SUFFIX`: the Roman-numeral suffix for each chord quality. -/
def QUALITY_SUFFIX : ChordQuality → String
  | .major => ""
  | .minor => ""
  | .diminished => "°"
  | .augmented => "+"
  | .dominant7 => "7"
  | .major7 => "maj7"
  | .minor7 => "7"
  | .diminished7 => "°7"
  | .halfDiminished7 => "ø7"
  | .sus2 => "sus2"
  | .sus4 => "sus4"

/-- `getScaleDegree(root, key)`: index of the root in the key's diatonic
scale, `-1` when non-diatonic. -/
def getScaleDegree (root : NoteName) (key : Key) : ℤ :=
  let scaleType := if key.mode = .major then "major" else "natural_minor"
  let scaleNotes := getScaleNotes key.tonic scaleType
  jsIndexOf scaleNotes root

/-- `isUpperCase(quality)`: upper case for major, augmented, dominant7, major7. -/
def isUpperCase (quality : ChordQuality) : Bool :=
  quality = .major ∨ quality = .augmented ∨
    quality = .dominant7 ∨ quality = .major7

/-- ASCII lower-casing of one character (JavaScript `toLowerCase` on the
label alphabet used here). -/
def asciiLower (c : Char) : Char :=
  if 65 ≤ c.toNat ∧ c.toNat ≤ 90 then Char.ofNat (c.toNat + 32) else c

/-- JavaScript `String.prototype.toLowerCase` on ASCII strings. -/
def strToLower (s : String) : String := s.map asciiLower

/-- The 12-entry chromatic label table used for non-diatonic roots. -/
def CHROMATIC_LABELS : List String :=
  ["I", "bII", "II", "bIII", "III", "IV", "#IV", "V", "bVI", "VI", "bVII", "VII"]

/-- `getRomanNumeral(chord, key)`: diatonic roots index the 7-numeral table
by scale degree; non-diatonic roots index the chromatic label table by
semitone distance from the tonic; case decided by quality. -/
def getRomanNumeral (chord : Chord) (key : Key) : String :=
  let degree := getScaleDegree chord.root key
  if degree = -1 then
    let semitones := intervalInSemitones key.tonic chord.root
    let upper := isUpperCase chord.quality
    let label := CHROMATIC_LABELS.getD semitones.toNat ""
    let base := if upper then label else strToLower label
    base ++ QUALITY_SUFFIX chord.quality
  else
    let upper := isUpperCase chord.quality
    let numerals := if upper then ROMAN_NUMERALS_UPPER else ROMAN_NUMERALS_LOWER
    numerals.getD degree.toNat "" ++ QUALITY_SUFFIX chord.quality

/-- `labelChords(chords, key)`: attach a Roman numeral to every chord. -/
def labelChords (chords : List Chord) (key : Key) : List ChordWithFunction :=
  chords.map fun chord =>
    ⟨chord.root, chord.quality, chord.symbol, chord.notes,
      chord.startBeat, chord.duration, getRomanNumeral chord key⟩

-- ── harmony-generator ──

/-- Voice types for harmony lines. -/
inductive VoiceType where
  | soprano | alto | tenor | bass
  deriving DecidableEq, Repr

/-- Harmony generation modes. -/
inductive HarmonyMode where
  | choir | classical
  deriving DecidableEq, Repr

/-- `VOICE_RANGES`: fixed MIDI range per voice type. -/
def VOICE_RANGES : VoiceType → ℤ × ℤ
  | .soprano => (60, 81)
  | .alto => (55, 76)
  | .tenor => (48, 69)
  | .bass => (40, 62)

/-- `HarmonyOptions` with the source defaults. -/
structure HarmonyOptions where
  mode : HarmonyMode := .choir
  voiceType : VoiceType := .alto
  preferAbove : Bool := false

/-- `findActiveChord(chords, beat)`: first chord whose
`[startBeat, startBeat + duration)` interval contains `beat`, else the
last chord with `startBeat ≤ beat`, else none. -/
def findActiveChord (chords : List ChordWithFunction) (beat : ℚ) :
    Option ChordWithFunction :=
  match chords.find? (fun c => decide (c.startBeat ≤ beat ∧
      beat < c.startBeat + c.duration)) with
  | some c => some c
  | none => (chords.filter fun c => decide (c.startBeat ≤ beat)).getLast?

/-- `getCandidatePitches(chordNoteNames, rangeMin, rangeMax)`: all octave
instances (octaves 1-8) of the chord's pitch classes inside the range. -/
def getCandidatePitches (chordNoteNames : List NoteName)
    (rangeMin rangeMax : ℤ) : List ℤ :=
  chordNoteNames.flatMap fun name =>
    let pitchClass := jsIndexOf NOTE_NAMES name
    ((List.range 8).map fun o => (o : ℤ) + 1).filterMap fun octave =>
      let midi := (octave + 1) * 12 + pitchClass
      if rangeMin ≤ midi ∧ midi ≤ rangeMax then some midi else none

/-- `midiToNoteObj(midi, startBeat, duration)`: build a `Note` from a MIDI
number. -/
noncomputable def midiToNoteObj (midi : ℤ) (startBeat duration : ℚ) : Note :=
  let n := midiToNote midi
  ⟨n.1, n.2, midi, midiToFrequency midi, duration, startBeat⟩

/-- The per-candidate score of the harmony generator: third/sixth bonus,
preferred-side bonus, voice-leading motion bonus/penalty, classical-mode
parallel-fifth/octave penalty, and distance-from-range-midpoint penalty. -/
def scoreCandidate (mode : HarmonyMode) (preferAbove : Bool)
    (melodyMidi : ℤ) (prevHarmonyMidi : Option ℤ) (prevMelodyMidi : ℤ)
    (rangeMin rangeMax : ℤ) (candidate : ℤ) : ℚ :=
  let intervalFromMelody := (candidate - melodyMidi).natAbs % 12
  let s1 : ℚ := 0
  let s2 := if intervalFromMelody = 3 ∨ intervalFromMelody = 4 then s1 + 10 else s1
  let s3 := if intervalFromMelody = 8 ∨ intervalFromMelody = 9 then s2 + 8 else s2
  let s4 := if preferAbove ∧ melodyMidi < candidate then s3 + 3 else s3
  let s5 := if ¬preferAbove ∧ candidate < melodyMidi then s4 + 3 else s4
  let s6 :=
    match prevHarmonyMidi with
    | none => s5
    | some prev =>
      let motion := (candidate - prev).natAbs
      if motion ≤ 2 then s5 + 6
      else if motion ≤ 4 then s5 + 3
      else s5 - motion
  let s7 :=
    match mode, prevHarmonyMidi with
    | .classical, some prev =>
      let prevInterval := (prev - prevMelodyMidi).natAbs % 12
      let currInterval := (candidate - melodyMidi).natAbs % 12
      let p1 := if prevInterval = 7 ∧ currInterval = 7 then s6 - 20 else s6
      if prevInterval = 0 ∧ currInterval = 0 then p1 - 20 else p1
    | _, _ => s6
  let rangeMid : ℚ := ((rangeMin : ℚ) + (rangeMax : ℚ)) / 2
  s7 - |(candidate : ℚ) - rangeMid| * (2 / 10)

/-- The best-candidate selection loop: start from `filtered[0]` with score
`-Infinity` (`⊥`), replace on strictly greater score. -/
def selectBest (cands : List ℤ) (f : ℤ → ℚ) : ℤ :=
  (cands.foldl
    (fun acc c => if acc.2 < ((f c : ℚ) : WithBot ℚ) then (c, ((f c : ℚ) : WithBot ℚ)) else acc)
    (cands.headD 0, (⊥ : WithBot ℚ))).1

/-- Main loop of `generateHarmonyLine`, carrying the index of the current
melody note (JavaScript `melody.indexOf(melodyNote)` under reference
equality) and the previous harmony MIDI number. -/
noncomputable def harmonyGo (melody : List MelodyNote)
    (chords : List ChordWithFunction) (mode : HarmonyMode)
    (preferAbove : Bool) (rangeMin rangeMax : ℤ) :
    List MelodyNote → ℕ → Option ℤ → List Note
  | [], _, _ => []
  | melodyNote :: rest, i, prevHarmonyMidi =>
    match findActiveChord chords melodyNote.startBeat with
    | none =>
      let interval : ℤ := if preferAbove then 4 else -3
      let harmonyMidi := melodyNote.midiNumber + interval
      midiToNoteObj harmonyMidi melodyNote.startBeat melodyNote.duration ::
        harmonyGo melody chords mode preferAbove rangeMin rangeMax rest (i + 1)
          (some harmonyMidi)
    | some activeChord =>
      let chordNotes := getChordNotes activeChord.root activeChord.quality
      let melodyMidi := melodyNote.midiNumber
      let candidates := getCandidatePitches chordNotes rangeMin rangeMax
      let filtered := candidates.filter fun midi => decide (midi ≠ melodyMidi)
      if filtered = [] then
        let fallback := melodyMidi + (if preferAbove then 4 else -3)
        midiToNoteObj fallback melodyNote.startBeat melodyNote.duration ::
          harmonyGo melody chords mode preferAbove rangeMin rangeMax rest (i + 1)
            (some fallback)
      else
        let prevMelodyMidi :=
          (melody.getD (i - 1) ⟨.C, 0, 0, 0, 0, 0, 0, none⟩).midiNumber
        let bestCandidate := selectBest filtered
          (scoreCandidate mode preferAbove melodyMidi prevHarmonyMidi
            prevMelodyMidi rangeMin rangeMax)
        midiToNoteObj bestCandidate melodyNote.startBeat melodyNote.duration ::
          harmonyGo melody chords mode preferAbove rangeMin rangeMax rest (i + 1)
            (some bestCandidate)

/-- `generateHarmonyLine(melody, chords, options)`. -/
noncomputable def generateHarmonyLine (melody : List MelodyNote)
    (chords : List ChordWithFunction) (options : HarmonyOptions := {}) :
    List Note :=
  let range := VOICE_RANGES options.voiceType
  harmonyGo melody chords options.mode options.preferAbove range.1 range.2
    melody 0 none

-- ── chord-recognizer: temporal smoothing and beat conversion ──

/-- The chord identity carried by a detection result. -/
structure DetectedChord where
  root : NoteName
  quality : ChordQuality
  symbol : String
  deriving DecidableEq, Repr

/-- `ChordDetectionResult`: one smoothed chord segment, times in seconds. -/
structure ChordDetectionResult where
  chord : DetectedChord
  confidence : ℚ
  startTime : ℚ
  endTime : ℚ
  deriving DecidableEq, Repr

/-- One raw (pre-smoothing) per-frame match result of `detectChords`. -/
structure RawFrameResult where
  root : NoteName
  quality : ChordQuality
  symbol : String
  confidence : ℚ
  startTime : ℚ
  endTime : ℚ
  deriving DecidableEq, Repr

/-- A fresh segment started from a raw frame result. -/
def startSegment (r : RawFrameResult) : ChordDetectionResult :=
  ⟨⟨r.root, r.quality, r.symbol⟩, r.confidence, r.startTime, r.endTime⟩

/-- The temporal-smoothing loop of `detectChords` (lines 149-176): frames
below `minConfidence` are skipped; an accepted frame whose symbol equals the
current segment's extends it (endTime advanced, confidence maxed); otherwise
the current segment is emitted and a new one starts. -/
def smoothGo (minConfidence : ℚ) :
    List RawFrameResult → Option ChordDetectionResult →
      List ChordDetectionResult
  | [], current =>
    match current with
    | none => []
    | some c => [c]
  | result :: rest, current =>
    if result.confidence < minConfidence then smoothGo minConfidence rest current
    else
      match current with
      | some c =>
        if c.chord.symbol = result.symbol then
          smoothGo minConfidence rest
            (some { c with endTime := result.endTime,
                           confidence := max c.confidence result.confidence })
        else
          c :: smoothGo minConfidence rest (some (startSegment result))
      | none => smoothGo minConfidence rest (some (startSegment result))

/-- Temporal smoothing over the whole raw result sequence. -/
def temporalSmooth (rawResults : List RawFrameResult) (minConfidence : ℚ) :
    List ChordDetectionResult :=
  smoothGo minConfidence rawResults none

/-- `chordResultsToChords(results, tempo)`: divide times by `60 / tempo`;
the `notes` field is left empty ("will be filled by theory functions"). -/
def chordResultsToChords (results : List ChordDetectionResult) (tempo : ℚ) :
    List Chord :=
  let secondsPerBeat := 60 / tempo
  results.map fun result =>
    ⟨result.chord.root, result.chord.quality, result.chord.symbol, [],
      result.startTime / secondsPerBeat,
      (result.endTime - result.startTime) / secondsPerBeat⟩

/-- The chord-conversion step of `analyzeAudio` (orchestrator lines 52-55):
convert detection results to beat-positioned chords, then fill `notes`
from the theory tables. -/
def analyzeAudioChords (results : List ChordDetectionResult) (tempo : ℚ) :
    List Chord :=
  (chordResultsToChords results tempo).map fun chord =>
    { chord with notes := getChordNotes chord.root chord.quality }

-- ── key-detector ──

/-- `pearsonCorrelation(x, y)`: correlation with the source's zero-denominator
guard (`denominator === 0 ? 0 : numerator / denominator`). Indices past a
list's end read 0. -/
noncomputable def pearsonCorrelation (x y : List ℚ) : ℝ :=
  let n : ℚ := x.length
  let sumX := (List.range x.length).foldl (fun s i => s + x.getD i 0) 0
  let sumY := (List.range x.length).foldl (fun s i => s + y.getD i 0) 0
  let sumXY := (List.range x.length).foldl (fun s i => s + x.getD i 0 * y.getD i 0) 0
  let sumX2 := (List.range x.length).foldl (fun s i => s + x.getD i 0 * x.getD i 0) 0
  let sumY2 := (List.range x.length).foldl (fun s i => s + y.getD i 0 * y.getD i 0) 0
  let numerator := n * sumXY - sumX * sumY
  let denominator :=
    Real.sqrt (((n * sumX2 - sumX * sumX) * (n * sumY2 - sumY * sumY) : ℚ))
  if denominator = 0 then 0 else (numerator : ℝ) / denominator

/-- One (key, correlation) candidate of the key detector. -/
structure KeyCorr where
  key : Key
  correlation : ℝ

/-- The 24 candidates in generation order: tonics in chromatic order, major
before minor for each tonic. -/
noncomputable def keyCandidates (histogram : List ℚ) : List KeyCorr :=
  (List.range 12).flatMap fun i =>
    let tonic := NOTE_NAMES.getD i .C
    let majorProfile := rotateArray MAJOR_KEY_PROFILE i
    let minorProfile := rotateArray MINOR_KEY_PROFILE i
    [⟨⟨tonic, .major, noteNameStr tonic ++ " major"⟩,
        pearsonCorrelation histogram majorProfile⟩,
      ⟨⟨tonic, .minor, noteNameStr tonic ++ " minor"⟩,
        pearsonCorrelation histogram minorProfile⟩]

/-- Stable insertion of a candidate into a descending-by-correlation list:
placed before the first strictly smaller element, after equal ones. -/
noncomputable def sortInsertDesc (a : KeyCorr) : List KeyCorr → List KeyCorr
  | [] => [a]
  | b :: t =>
    if b.correlation < a.correlation then a :: b :: t else b :: sortInsertDesc a t

/-- `correlations.sort((a, b) => b.correlation - a.correlation)`: JavaScript's
stable sort, modelled as stable insertion sort (any stable sort by the same
comparator yields the same list). -/
noncomputable def sortByCorrDesc (l : List KeyCorr) : List KeyCorr :=
  l.foldl (fun acc a => sortInsertDesc a acc) []

/-- Result record of `detectKey`. -/
structure DetectKeyResult where
  key : Key
  confidence : ℝ
  allCorrelations : List KeyCorr

/-- `detectKey(histogram)`: correlate against all 24 rotated profiles, sort
descending by correlation, return the top candidate. -/
noncomputable def detectKey (histogram : List ℚ) : DetectKeyResult :=
  let correlations := sortByCorrDesc (keyCandidates histogram)
  let top := correlations.getD 0 ⟨⟨.C, .major, "C major"⟩, 0⟩
  ⟨top.key, top.correlation, correlations⟩

-- ── audio-utils: createFrames ──

/-- The `createFrames` loop (`for (i = 0; i + frameSize <= data.length;
i += hopSize)`), with fuel counting remaining loop iterations; `none` means
the fuel ran out before the loop condition failed. -/
def createFramesAux (data : List ℚ) (frameSize hopSize : ℤ) :
    ℕ → ℤ → List (List ℚ) → Option (List (List ℚ))
  | 0, i, acc => if i + frameSize ≤ (data.length : ℤ) then none else some acc
  | fuel + 1, i, acc =>
    if i + frameSize ≤ (data.length : ℤ) then
      createFramesAux data frameSize hopSize fuel (i + hopSize)
        (acc ++ [(data.drop i.toNat).take frameSize.toNat])
    else
      some acc

/-- `createFrames(data, frameSize, hopSize)`: run the loop with fuel
`data.length - frameSize + 2` iterations, enough for every `hopSize ≥ 1`
(the loop index grows by at least 1 per iteration). -/
def createFrames (data : List ℚ) (frameSize hopSize : ℤ) :
    Option (List (List ℚ)) :=
  createFramesAux data frameSize hopSize
    ((data.length : ℤ) - frameSize + 2).toNat 0 []

-- ── Claim-side definitions and concrete inputs used by witnesses ──

/-- A default melody note used with `List.getD`. -/
noncomputable def defaultMelodyNote : MelodyNote := ⟨.C, 0, 0, 0, 0, 0, 0, none⟩

/-- Concrete melody note used by witnesses: A4, slightly off-grid timing. -/
noncomputable def witnessNote : MelodyNote :=
  ⟨.A, 4, 69, 440, 26 / 100, 31 / 100, 1, none⟩

/-- The C7 claim, written from the spec's words: if the chord root occurs at
index `d` in the key's major or natural-minor scale, take the `d`-th numeral
of the 7-numeral table (case by quality) plus the quality suffix; otherwise
take the chromatic 12-entry label at the semitone distance from the tonic,
case-adjusted the same way, plus the suffix. -/
def romanNumeralClaimed (chord : Chord) (key : Key) : String :=
  let scaleType := if key.mode = .major then "major" else "natural_minor"
  let scale := getScaleNotes key.tonic scaleType
  match firstIdx scale chord.root with
  | some d =>
    (if isUpperCase chord.quality then ROMAN_NUMERALS_UPPER
      else ROMAN_NUMERALS_LOWER).getD d "" ++ QUALITY_SUFFIX chord.quality
  | none =>
    let semitones := intervalInSemitones key.tonic chord.root
    let label := CHROMATIC_LABELS.getD semitones.toNat ""
    (if isUpperCase chord.quality then label else strToLower label) ++
      QUALITY_SUFFIX chord.quality

/-- A default note used with `List.headD`. -/
noncomputable def defaultNote : Note := ⟨.C, 0, 0, 0, 0, 0⟩

/-- Concrete C-major chord (beats 0-4) used by the C4 witness. -/
def witnessChord : ChordWithFunction :=
  ⟨.C, .major, "C", [.C, .E, .G], 0, 4, "I"⟩

/-- Accepted C-major frame (confidence 0.9, seconds 0-1). -/
def rawC1a : RawFrameResult := ⟨.C, .major, "C", 9 / 10, 0, 1⟩

/-- Low-confidence frame (confidence 0.2, seconds 1-2), dropped by
smoothing. -/
def rawC1b : RawFrameResult := ⟨.C, .major, "C", 2 / 10, 1, 2⟩

/-- Accepted C-major frame (confidence 0.8, seconds 2-3). -/
def rawC1c : RawFrameResult := ⟨.C, .major, "C", 8 / 10, 2, 3⟩

/-- A concrete chord-detection segment: C major, seconds 0-2. -/
def exDetection : ChordDetectionResult := ⟨⟨.C, .major, "C"⟩, 9 / 10, 0, 2⟩

/-- A default chord used with `List.getD`. -/
def defaultChord : Chord := ⟨.C, .major, "", [], 0, 0⟩

-- ── Helper lemmas ──

/-- Negation commutes with truncated remainder. -/
theorem neg_tmod (a b : ℤ) : (-a).tmod b = -(a.tmod b) := by
  rw [Int.tmod_def, Int.tmod_def, Int.neg_tdiv]
  ring

/-- The JavaScript double-remainder normalization `((m % 12) + 12) % 12`
equals the Euclidean remainder. -/
theorem tmod_norm (m : ℤ) : (m.tmod 12 + 12).tmod 12 = m % 12 := by
  rcases le_or_lt 0 m with h | h
  · rw [Int.tmod_eq_emod h (by norm_num), Int.tmod_eq_emod
      (by have := Int.emod_nonneg m (show (12:ℤ) ≠ 0 by norm_num); omega)
      (by norm_num)]
    omega
  · have h1 : m.tmod 12 = -((-m).tmod 12) := by rw [neg_tmod, neg_neg]
    have hnn : 0 ≤ (-m).tmod 12 := Int.tmod_nonneg 12 (by omega)
    have hlt : (-m).tmod 12 < 12 := Int.tmod_lt_of_pos (-m) (by norm_num)
    rw [h1, Int.tmod_eq_emod (by omega) (by norm_num),
      Int.tmod_eq_emod (by omega) (by norm_num)] at *
    omega

/-- Looking a pitch-class index back up in `NOTE_NAMES` recovers the index. -/
theorem jsIndexOf_getD_noteNames (e : ℤ) (h1 : 0 ≤ e) (h2 : e < 12) :
    jsIndexOf NOTE_NAMES (NOTE_NAMES.getD e.toNat .C) = e := by
  interval_cases e <;> decide

/-- `Math.round` picks a nearest integer: no integer is strictly closer. -/
theorem jsRound_nearest (y : ℚ) (k : ℤ) :
    |(jsRound y : ℚ) - y| ≤ |(k : ℚ) - y| := by
  unfold jsRound
  set r := ⌊y + 1 / 2⌋ with hr
  have hle : (r : ℚ) ≤ y + 1 / 2 := Int.floor_le _
  have hgt : y + 1 / 2 < (r : ℚ) + 1 := Int.lt_floor_add_one _
  have habs : |(r : ℚ) - y| ≤ 1 / 2 := abs_le.mpr ⟨by linarith, by linarith⟩
  rcases eq_or_ne k r with rfl | hne
  · exact le_refl _
  · have h1 : (1 : ℚ) ≤ |(k : ℚ) - (r : ℚ)| := by
      have : (1 : ℤ) ≤ |k - r| := Int.one_le_abs (sub_ne_zero.mpr hne)
      calc (1 : ℚ) = ((1 : ℤ) : ℚ) := by norm_num
        _ ≤ ((|k - r| : ℤ) : ℚ) := by exact_mod_cast this
        _ = |(k : ℚ) - (r : ℚ)| := by push_cast; rfl
    have h2 : |(k : ℚ) - (r : ℚ)| ≤ |(k : ℚ) - y| + |(r : ℚ) - y| := by
      calc |(k : ℚ) - (r : ℚ)| = |((k : ℚ) - y) + (y - (r : ℚ))| := by ring_nf
        _ ≤ |(k : ℚ) - y| + |y - (r : ℚ)| := abs_add _ _
        _ = |(k : ℚ) - y| + |(r : ℚ) - y| := by rw [abs_sub_comm y]
    linarith

-- ── Claim C8: MIDI/note round trip and the 440 Hz reference ──

/-- C8: converting any integer MIDI number to a (name, octave) pair and back
is the identity; `midiToFrequency 69 = 440` and `frequencyToMidi 440 = 69`. -/
theorem midi_note_roundtrip_and_a440 :
    (∀ m : ℤ, noteToMidi (midiToNote m).1 (midiToNote m).2 = m) ∧
      midiToFrequency 69 = 440 ∧ frequencyToMidi 440 = 69 := by
  refine ⟨fun m => ?_, ?_, ?_⟩
  · unfold noteToMidi midiToNote
    simp only
    rw [tmod_norm]
    have he1 : 0 ≤ m % 12 := Int.emod_nonneg m (by norm_num)
    have he2 : m % 12 < 12 := Int.emod_lt_of_pos m (by norm_num)
    rw [jsIndexOf_getD_noteNames _ he1 he2]
    rw [Int.fdiv_eq_ediv _ (by norm_num)]
    omega
  · unfold midiToFrequency
    norm_num
  · unfold frequencyToMidi jsRoundR
    norm_num [Real.logb_one, Int.floor_eq_iff]

-- ── Claim C9: quantizeMelody touches only startBeat and duration ──

/-- C9: `quantizeMelody` preserves length and order, and leaves name, octave,
midiNumber, frequency, confidence and chordTone of every note unchanged. -/
theorem quantizeMelody_frame (notes : List MelodyNote) (s : ℚ) :
    (quantizeMelody notes s).length = notes.length ∧
      (quantizeMelody notes s).map MelodyNote.name = notes.map MelodyNote.name ∧
      (quantizeMelody notes s).map MelodyNote.octave = notes.map MelodyNote.octave ∧
      (quantizeMelody notes s).map MelodyNote.midiNumber =
        notes.map MelodyNote.midiNumber ∧
      (quantizeMelody notes s).map MelodyNote.frequency =
        notes.map MelodyNote.frequency ∧
      (quantizeMelody notes s).map MelodyNote.confidence =
        notes.map MelodyNote.confidence ∧
      (quantizeMelody notes s).map MelodyNote.chordTone =
        notes.map MelodyNote.chordTone := by
  unfold quantizeMelody
  simp [List.map_map, Function.comp_def]

-- ── Claim C5: quantizeMelody snaps to the subdivision grid ──

/-- C5: for subdivision `s > 0`, each quantized `startBeat` is a nearest
multiple of `1/s`, and each quantized `duration` is a nearest multiple of
`1/s` floored at `1/s` (hence at least `1/s`, never 0). -/
theorem quantizeMelody_grid (notes : List MelodyNote) (s : ℚ) (hs : 0 < s)
    (i : ℕ) (hi : i < notes.length) :
    (∃ k : ℤ, ((quantizeMelody notes s).getD i defaultMelodyNote).startBeat =
        (k : ℚ) / s) ∧
      (∀ k : ℤ,
        |((quantizeMelody notes s).getD i defaultMelodyNote).startBeat -
            (notes.getD i defaultMelodyNote).startBeat| ≤
          |(k : ℚ) / s - (notes.getD i defaultMelodyNote).startBeat|) ∧
      (∃ d : ℚ, (∃ k : ℤ, d = (k : ℚ) / s) ∧
        (∀ k : ℤ, |d - (notes.getD i defaultMelodyNote).duration| ≤
          |(k : ℚ) / s - (notes.getD i defaultMelodyNote).duration|) ∧
        ((quantizeMelody notes s).getD i defaultMelodyNote).duration =
          max (1 / s) d) ∧
      1 / s ≤ ((quantizeMelody notes s).getD i defaultMelodyNote).duration := by
  have hg : (1 : ℚ) / s ≠ 0 := by positivity
  set g : ℚ := 1 / s with hgdef
  set n := notes.getD i defaultMelodyNote with hn
  have hget : (quantizeMelody notes s).getD i defaultMelodyNote =
      { n with
        startBeat := (jsRound (n.startBeat / g) : ℚ) * g,
        duration := max g ((jsRound (n.duration / g) : ℚ) * g) } := by
    unfold quantizeMelody
    simp only [List.getD_eq_getElem?_getD, List.getElem?_map]
    rw [List.getElem?_eq_getElem hi]
    simp [hn, List.getD_eq_getElem?_getD, List.getElem?_eq_getElem hi, hgdef,
      one_div, div_inv_eq_mul]
  rw [hget]
  have hc : ∀ x : ℚ, x / g * g = x := fun x => div_mul_cancel₀ x hg
  have key : ∀ (x : ℚ) (k : ℤ),
      |(jsRound (x / g) : ℚ) * g - x| ≤ |(k : ℚ) * g - x| := by
    intro x k
    have h1 : (jsRound (x / g) : ℚ) * g - x =
        ((jsRound (x / g) : ℚ) - x / g) * g := by rw [sub_mul, hc]
    have h2 : (k : ℚ) * g - x = ((k : ℚ) - x / g) * g := by rw [sub_mul, hc]
    rw [h1, h2, abs_mul, abs_mul]
    exact mul_le_mul_of_nonneg_right (jsRound_nearest (x / g) k) (abs_nonneg _)
  have hdiv : ∀ k : ℤ, (k : ℚ) * g = (k : ℚ) / s := by
    intro k
    rw [hgdef, one_div, div_eq_mul_inv]
  refine ⟨⟨jsRound (n.startBeat / g), hdiv _⟩,
      fun k => by rw [← hdiv k]; exact key n.startBeat k,
      ⟨(jsRound (n.duration / g) : ℚ) * g,
        ⟨jsRound (n.duration / g), hdiv _⟩,
        fun k => by rw [← hdiv k]; exact key n.duration k, by rw [hgdef]⟩,
      ?_⟩
  rw [hgdef]
  exact le_max_left _ _

/-- C5 witness: the hypotheses hold and the conclusion evaluates at a
concrete melody note with subdivision 4. -/
theorem quantizeMelody_grid_witness :
    (0 : ℚ) < 4 ∧ 0 < [witnessNote].length ∧
      ((∃ k : ℤ, ((quantizeMelody [witnessNote] 4).getD 0 defaultMelodyNote).startBeat =
          (k : ℚ) / 4) ∧
        (∀ k : ℤ,
          |((quantizeMelody [witnessNote] 4).getD 0 defaultMelodyNote).startBeat -
              ([witnessNote].getD 0 defaultMelodyNote).startBeat| ≤
            |(k : ℚ) / 4 - ([witnessNote].getD 0 defaultMelodyNote).startBeat|) ∧
        (∃ d : ℚ, (∃ k : ℤ, d = (k : ℚ) / 4) ∧
          (∀ k : ℤ, |d - ([witnessNote].getD 0 defaultMelodyNote).duration| ≤
            |(k : ℚ) / 4 - ([witnessNote].getD 0 defaultMelodyNote).duration|) ∧
          ((quantizeMelody [witnessNote] 4).getD 0 defaultMelodyNote).duration =
            max (1 / 4) d) ∧
        1 / 4 ≤ ((quantizeMelody [witnessNote] 4).getD 0 defaultMelodyNote).duration) :=
  ⟨by norm_num, by norm_num,
    quantizeMelody_grid [witnessNote] 4 (by norm_num) 0 (by norm_num)⟩

-- ── Claim C7: Roman-numeral labelling ──

/-- `jsIndexOf` agrees with the `Option`-valued first-index function:
`-1` exactly when absent, and the first index otherwise. -/
theorem jsIndexOf_firstIdx {α : Type} [DecidableEq α] (l : List α) (a : α) :
    (firstIdx l a = none → jsIndexOf l a = -1) ∧
      (∀ d : ℕ, firstIdx l a = some d → jsIndexOf l a = (d : ℤ)) := by
  induction l with
  | nil => simp [firstIdx, jsIndexOf]
  | cons b t ih =>
    by_cases hba : b = a
    · simp [firstIdx, jsIndexOf, hba]
    · cases hft : firstIdx t a with
      | none =>
        constructor
        · intro _
          simp [jsIndexOf, hba, ih.1 hft]
        · intro d h
          simp [firstIdx, hba, hft] at h
      | some e =>
        constructor
        · intro h
          simp [firstIdx, hba, hft] at h
        · intro d h
          simp only [firstIdx, if_neg hba, hft, Option.map_some] at h
          obtain rfl : e + 1 = d := Option.some_injective _ h
          have h2 := ih.2 e hft
          simp only [jsIndexOf, if_neg hba, h2]
          rw [if_neg (by omega)]
          push_cast
          ring

/-- C7: `getRomanNumeral` computes exactly the numeral described by the
spec: diatonic degree indexing of the 7-numeral table, chromatic 12-label
fallback, case by quality, followed by the quality suffix. -/
theorem getRomanNumeral_spec (chord : Chord) (key : Key) :
    getRomanNumeral chord key = romanNumeralClaimed chord key := by
  unfold getRomanNumeral romanNumeralClaimed getScaleDegree
  dsimp only
  cases hf : firstIdx
      (getScaleNotes key.tonic
        (if key.mode = .major then "major" else "natural_minor"))
      chord.root with
  | none =>
    rw [(jsIndexOf_firstIdx _ _).1 hf]
    simp
  | some d =>
    rw [(jsIndexOf_firstIdx _ _).2 d hf]
    rw [if_neg (by omega)]
    simp

-- ── Claim C1: temporal smoothing across a dropped frame ──

/-- C1 counterexample: two same-symbol frames above `minConfidence`
separated by one below-threshold frame yield ONE merged segment, not two:
the smoothing loop keeps `current` across dropped frames, so the claim's
"two separate result segments" is false at this input. -/
theorem temporalSmooth_two_segments_false :
    ¬((temporalSmooth [rawC1a, rawC1b, rawC1c] (1 / 2)).length = 2) ∧
      temporalSmooth [rawC1a, rawC1b, rawC1c] (1 / 2) =
        [⟨⟨.C, .major, "C"⟩, 9 / 10, 0, 3⟩] := by
  constructor
  · norm_num [temporalSmooth, smoothGo, startSegment, rawC1a, rawC1b, rawC1c]
  · norm_num [temporalSmooth, smoothGo, startSegment, rawC1a, rawC1b, rawC1c]

/-- C1 amended: two frames with the same chord symbol, each with confidence
at least `minConfidence`, separated by one frame below `minConfidence`, are
merged into a single segment spanning from the first frame's start to the
second frame's end, with the maximum of the two confidences. -/
theorem temporalSmooth_bridge (r1 r2 r3 : RawFrameResult) (mc : ℚ)
    (hsym : r1.symbol = r3.symbol) (h1 : mc ≤ r1.confidence)
    (h2 : r2.confidence < mc) (h3 : mc ≤ r3.confidence) :
    temporalSmooth [r1, r2, r3] mc =
      [⟨⟨r1.root, r1.quality, r1.symbol⟩, max r1.confidence r3.confidence,
        r1.startTime, r3.endTime⟩] := by
  simp [temporalSmooth, smoothGo, startSegment, not_lt.2 h1, h2, not_lt.2 h3,
    hsym]

/-- C1 witness: the amended merge behaviour at the concrete three frames. -/
theorem temporalSmooth_bridge_witness :
    rawC1a.symbol = rawC1c.symbol ∧ (1 : ℚ) / 2 ≤ rawC1a.confidence ∧
      rawC1b.confidence < (1 : ℚ) / 2 ∧ (1 : ℚ) / 2 ≤ rawC1c.confidence ∧
      temporalSmooth [rawC1a, rawC1b, rawC1c] (1 / 2) =
        [⟨⟨rawC1a.root, rawC1a.quality, rawC1a.symbol⟩,
          max rawC1a.confidence rawC1c.confidence,
          rawC1a.startTime, rawC1c.endTime⟩] :=
  ⟨rfl, by norm_num [rawC1a], by norm_num [rawC1b], by norm_num [rawC1c],
    temporalSmooth_bridge rawC1a rawC1b rawC1c (1 / 2) rfl
      (by norm_num [rawC1a]) (by norm_num [rawC1b]) (by norm_num [rawC1c])⟩

-- ── Claim C2: conversion of detection segments to beat-relative chords ──

/-- C2 counterexample: `chordResultsToChords` leaves `notes` empty, so the
claim that it returns the pitch classes derived from (root, quality) is
false at this input (the interval table gives C, E, G there). -/
theorem chordResultsToChords_notes_false :
    ((chordResultsToChords [exDetection] 120).getD 0 defaultChord).notes = [] ∧
      getChordNotes
          ((chordResultsToChords [exDetection] 120).getD 0 defaultChord).root
          ((chordResultsToChords [exDetection] 120).getD 0 defaultChord).quality =
        [.C, .E, .G] ∧
      ((chordResultsToChords [exDetection] 120).getD 0 defaultChord).notes ≠
        getChordNotes
          ((chordResultsToChords [exDetection] 120).getD 0 defaultChord).root
          ((chordResultsToChords [exDetection] 120).getD 0 defaultChord).quality := by
  refine ⟨by decide, by decide, by decide⟩

/-- C2 amended: for `tempo > 0`, `chordResultsToChords` maps each segment to
`startBeat = startTime / (60 / tempo)`, `duration = (endTime - startTime) /
(60 / tempo)` and `notes = []`; the orchestrator's conversion step then
fills `notes` with the pitch classes from the chord interval table. -/
theorem chordResultsToChords_spec (results : List ChordDetectionResult)
    (tempo : ℚ) (_ht : 0 < tempo) :
    (chordResultsToChords results tempo).map Chord.startBeat =
        results.map (fun r => r.startTime / (60 / tempo)) ∧
      (chordResultsToChords results tempo).map Chord.duration =
        results.map (fun r => (r.endTime - r.startTime) / (60 / tempo)) ∧
      (chordResultsToChords results tempo).map Chord.notes =
        results.map (fun _ => ([] : List NoteName)) ∧
      (analyzeAudioChords results tempo).map Chord.startBeat =
        results.map (fun r => r.startTime / (60 / tempo)) ∧
      (analyzeAudioChords results tempo).map Chord.duration =
        results.map (fun r => (r.endTime - r.startTime) / (60 / tempo)) ∧
      (analyzeAudioChords results tempo).map Chord.notes =
        results.map (fun r => getChordNotes r.chord.root r.chord.quality) := by
  unfold analyzeAudioChords chordResultsToChords
  simp [List.map_map, Function.comp_def]

/-- C2 witness: the amended conversion at a concrete segment and tempo 120. -/
theorem chordResultsToChords_spec_witness :
    (0 : ℚ) < 120 ∧
      ((chordResultsToChords [exDetection] 120).map Chord.startBeat =
          [exDetection].map (fun r => r.startTime / (60 / 120)) ∧
        (chordResultsToChords [exDetection] 120).map Chord.duration =
          [exDetection].map (fun r => (r.endTime - r.startTime) / (60 / 120)) ∧
        (chordResultsToChords [exDetection] 120).map Chord.notes =
          [exDetection].map (fun _ => ([] : List NoteName)) ∧
        (analyzeAudioChords [exDetection] 120).map Chord.startBeat =
          [exDetection].map (fun r => r.startTime / (60 / 120)) ∧
        (analyzeAudioChords [exDetection] 120).map Chord.duration =
          [exDetection].map (fun r => (r.endTime - r.startTime) / (60 / 120)) ∧
        (analyzeAudioChords [exDetection] 120).map Chord.notes =
          [exDetection].map (fun r => getChordNotes r.chord.root r.chord.quality)) :=
  ⟨by norm_num, chordResultsToChords_spec [exDetection] 120 (by norm_num)⟩

-- ── Claim C3: key detection on an all-zero histogram ──

/-- Folding `+ g i` over a range adds nothing when `g` is identically 0. -/
theorem range_foldl_zero (n : ℕ) (g : ℕ → ℚ) (h : ∀ i, g i = 0) :
    ∀ a : ℚ, (List.range n).foldl (fun s i => s + g i) a = a := by
  induction n with
  | zero => intro a; rfl
  | succ m ih =>
    intro a
    rw [List.range_succ, List.foldl_append, ih a]
    simp [h]

/-- Pearson correlation of the all-zero 12-bin histogram against any
profile is 0: the numerator vanishes and the zero-denominator guard (or the
division) yields 0 either way. -/
theorem pearson_zeroHist (y : List ℚ) :
    pearsonCorrelation (List.replicate 12 (0 : ℚ)) y = 0 := by
  have hx : ∀ i, (List.replicate 12 (0 : ℚ)).getD i 0 = 0 := by
    intro i
    rcases lt_or_ge i 12 with h | h
    · rw [List.getD_eq_getElem?_getD, List.getElem?_replicate, if_pos h]
      rfl
    · rw [List.getD_eq_getElem?_getD, List.getElem?_replicate,
        if_neg (by omega)]
      rfl
  unfold pearsonCorrelation
  dsimp only
  rw [range_foldl_zero _ (fun i => (List.replicate 12 (0 : ℚ)).getD i 0)
      (fun i => hx i),
    range_foldl_zero _ (fun i => (List.replicate 12 (0 : ℚ)).getD i 0 * y.getD i 0)
      (fun i => by
        show (List.replicate 12 (0 : ℚ)).getD i 0 * y.getD i 0 = 0
        rw [hx i]; ring),
    range_foldl_zero _
      (fun i => (List.replicate 12 (0 : ℚ)).getD i 0 *
        (List.replicate 12 (0 : ℚ)).getD i 0)
      (fun i => by
        show (List.replicate 12 (0 : ℚ)).getD i 0 *
          (List.replicate 12 (0 : ℚ)).getD i 0 = 0
        rw [hx i]; ring)]
  split <;> push_cast <;> norm_num

/-- Inserting a zero-correlation candidate into an all-zero list appends it
at the end (stability: no strict comparison ever fires). -/
theorem sortInsertDesc_append (a : KeyCorr) (l : List KeyCorr)
    (ha : a.correlation = 0) (hl : ∀ c ∈ l, c.correlation = 0) :
    sortInsertDesc a l = l ++ [a] := by
  induction l with
  | nil => rfl
  | cons b t ih =>
    have hb : b.correlation = 0 := hl b (by simp)
    rw [sortInsertDesc, if_neg (by rw [hb, ha]; exact lt_irrefl 0),
      ih (fun c hc => hl c (by simp [hc]))]
    simp

/-- Folding stable insertion over an all-zero candidate list appends in
order. -/
theorem foldl_insertDesc_append :
    ∀ (l acc : List KeyCorr), (∀ c ∈ l, c.correlation = 0) →
      (∀ c ∈ acc, c.correlation = 0) →
      List.foldl (fun acc a => sortInsertDesc a acc) acc l = acc ++ l := by
  intro l
  induction l with
  | nil => intro acc _ _; simp
  | cons a t ih =>
    intro acc hl hacc
    have ha : a.correlation = 0 := hl a (by simp)
    rw [List.foldl_cons, sortInsertDesc_append a acc ha hacc,
      ih (acc ++ [a]) (fun c hc => hl c (by simp [hc]))
        (fun c hc => by
          rcases List.mem_append.mp hc with h | h
          · exact hacc c h
          · simp at h
            rw [h, ha])]
    simp

/-- Sorting an all-equal-correlation list is the identity (stability of the
JavaScript sort). -/
theorem sortByCorrDesc_id (l : List KeyCorr)
    (hl : ∀ c ∈ l, c.correlation = 0) : sortByCorrDesc l = l := by
  unfold sortByCorrDesc
  rw [foldl_insertDesc_append l [] hl (by simp)]
  simp

/-- Every candidate correlation for the all-zero histogram is 0. -/
theorem keyCandidates_zero :
    ∀ c ∈ keyCandidates (List.replicate 12 0), c.correlation = 0 := by
  intro c hc
  simp only [keyCandidates, List.mem_flatMap] at hc
  obtain ⟨i, _, hc⟩ := hc
  simp only [List.mem_cons, List.not_mem_nil, or_false] at hc
  rcases hc with rfl | rfl <;> exact pearson_zeroHist _

/-- C3: on the all-zero histogram every one of the 24 candidates gets
correlation 0 (not NaN: the guard makes it exact), and the first candidate
in iteration order, C major, is returned with confidence 0. -/
theorem detectKey_zero_histogram :
    (detectKey (List.replicate 12 0)).allCorrelations.map KeyCorr.correlation =
        List.replicate 24 (0 : ℝ) ∧
      (detectKey (List.replicate 12 0)).key = ⟨.C, .major, "C major"⟩ ∧
      (detectKey (List.replicate 12 0)).confidence = 0 := by
  have hsort : sortByCorrDesc (keyCandidates (List.replicate 12 0)) =
      keyCandidates (List.replicate 12 0) :=
    sortByCorrDesc_id _ keyCandidates_zero
  unfold detectKey
  dsimp only
  rw [hsort]
  have hrange : List.range 12 = [0, 1, 2, 3, 4, 5, 6, 7, 8, 9, 10, 11] := rfl
  refine ⟨?_, ?_, ?_⟩
  · rw [keyCandidates, hrange]
    simp only [List.flatMap_cons, List.flatMap_nil, List.append_nil,
      List.cons_append, List.nil_append, List.map_cons, List.map_nil,
      pearson_zeroHist]
    rfl
  · rw [keyCandidates, hrange]
    rfl
  · rw [keyCandidates, hrange]
    simp only [List.flatMap_cons, List.flatMap_nil, List.append_nil,
      List.cons_append, List.nil_append, List.getD_cons_zero]
    exact pearson_zeroHist _

-- ── Claim C6: tempo estimation ──

/-- On the reachable inputs (between 30 and 400 BPM) the doubling loop
terminates within the fuel and lands in [60, 400). -/
theorem doubleWhile_bound (b : ℚ) (h1 : 30 < b) (h2 : b < 400) :
    60 ≤ doubleWhileBelow60 64 b ∧ doubleWhileBelow60 64 b < 400 := by
  have e1 : doubleWhileBelow60 64 b =
      if b < 60 then doubleWhileBelow60 63 (b * 2) else b := rfl
  rcases lt_or_ge b 60 with hb | hb
  · have e2 : doubleWhileBelow60 63 (b * 2) =
        if b * 2 < 60 then doubleWhileBelow60 62 (b * 2 * 2) else b * 2 := rfl
    rw [e1, if_pos hb, e2, if_neg (by linarith)]
    constructor <;> linarith
  · rw [e1, if_neg (not_lt.2 hb)]
    exact ⟨hb, h2⟩

/-- On [60, 400) the halving loop terminates within the fuel and lands in
[60, 180]. -/
theorem halveWhile_bound (b : ℚ) (h1 : 60 ≤ b) (h2 : b < 400) :
    60 ≤ halveWhileAbove180 64 b ∧ halveWhileAbove180 64 b ≤ 180 := by
  have e1 : halveWhileAbove180 64 b =
      if 180 < b then halveWhileAbove180 63 (b / 2) else b := rfl
  rcases le_or_lt b 180 with hb | hb
  · rw [e1, if_neg (not_lt.2 hb)]
    exact ⟨h1, hb⟩
  · have e2 : halveWhileAbove180 63 (b / 2) =
        if 180 < b / 2 then halveWhileAbove180 62 (b / 2 / 2) else b / 2 := rfl
    rcases le_or_lt (b / 2) 180 with hb2 | hb2
    · rw [e1, if_pos hb, e2, if_neg (not_lt.2 hb2)]
      constructor <;> linarith
    · have e3 : halveWhileAbove180 62 (b / 2 / 2) =
          if 180 < b / 2 / 2 then halveWhileAbove180 61 (b / 2 / 2 / 2)
          else b / 2 / 2 := rfl
      rw [e1, if_pos hb, e2, if_pos hb2, e3, if_neg (by linarith)]
      constructor <;> linarith

/-- Rounding stays inside an integer-bounded interval. -/
theorem jsRound_bounds (q : ℚ) (h1 : 60 ≤ q) (h2 : q ≤ 180) :
    60 ≤ jsRound q ∧ jsRound q ≤ 180 := by
  unfold jsRound
  constructor
  · exact Int.le_floor.mpr (by push_cast; linarith)
  · have : ⌊q + 1 / 2⌋ < 181 := Int.floor_lt.mpr (by push_cast; linarith)
    omega

/-- The median inter-onset interval is one of the collected intervals. -/
theorem medianIOI_mem (iois : List ℚ) (h : iois ≠ []) :
    medianIOI iois ∈ iois := by
  unfold medianIOI
  have hlen : (iois.mergeSort fun a b => decide (a ≤ b)).length = iois.length :=
    List.length_mergeSort ..
  have hpos : 0 < iois.length := List.length_pos.mpr h
  have hidx : iois.length / 2 < (iois.mergeSort fun a b => decide (a ≤ b)).length := by
    rw [hlen]
    exact Nat.div_lt_self hpos (by norm_num)
  rw [List.getD_eq_getElem?_getD, List.getElem?_eq_getElem hidx]
  exact (List.mergeSort_perm iois _).subset (List.getElem_mem hidx)

/-- Every collected inter-onset interval lies strictly between 150 and
2000 ms. -/
theorem collectIOIs_range (segments : List NoteSegment) :
    ∀ x ∈ collectIOIs segments, 150 < x ∧ x < 2000 := by
  intro x hx
  unfold collectIOIs at hx
  have := List.of_mem_filter hx
  simpa using this

/-- C6: fewer than 3 segments or no valid inter-onset interval defaults to
120 BPM; otherwise the result is the rounded, octave-corrected
`60000 / medianIOI` and always lies in [60, 180]. -/
theorem estimateTempo_spec (frames : List PitchFrame) :
    if (groupIntoSegments frames).length < 3 ∨
        collectIOIs (groupIntoSegments frames) = [] then
      estimateTempo frames = 120
    else
      estimateTempo frames =
          jsRound (halveWhileAbove180 64 (doubleWhileBelow60 64
            (60000 / medianIOI (collectIOIs (groupIntoSegments frames))))) ∧
        60 ≤ estimateTempo frames ∧ estimateTempo frames ≤ 180 := by
  split
  next h =>
    rcases h with hlen | hioi
    · unfold estimateTempo
      rw [if_pos hlen]
    · unfold estimateTempo
      by_cases hlen : (groupIntoSegments frames).length < 3
      · rw [if_pos hlen]
      · rw [if_neg hlen]
        dsimp only
        rw [if_pos hioi]
  next h =>
    push_neg at h
    obtain ⟨hlen, hioi⟩ := h
    have heq : estimateTempo frames =
        jsRound (halveWhileAbove180 64 (doubleWhileBelow60 64
          (60000 / medianIOI (collectIOIs (groupIntoSegments frames))))) := by
      unfold estimateTempo
      rw [if_neg (by omega)]
      dsimp only
      rw [if_neg hioi]
    refine ⟨heq, ?_⟩
    set m := medianIOI (collectIOIs (groupIntoSegments frames)) with hm
    have hmem : m ∈ collectIOIs (groupIntoSegments frames) := medianIOI_mem _ hioi
    obtain ⟨hm1, hm2⟩ := collectIOIs_range _ m hmem
    have hmpos : (0 : ℚ) < m := by linarith
    have h30 : (30 : ℚ) < 60000 / m := by
      rw [lt_div_iff₀ hmpos]
      linarith
    have h400 : 60000 / m < 400 := by
      rw [div_lt_iff₀ hmpos]
      linarith
    obtain ⟨hd1, hd2⟩ := doubleWhile_bound _ h30 h400
    obtain ⟨hh1, hh2⟩ := halveWhile_bound _ hd1 hd2
    obtain ⟨hr1, hr2⟩ := jsRound_bounds _ hh1 hh2
    rw [heq]
    exact ⟨hr1, hr2⟩

-- ── Claim C10: createFrames termination and frame count ──

/-- For `hopSize ≥ 1` the framing loop terminates within any fuel at least
the remaining iteration count, appending exactly that many frames. -/
theorem createFramesAux_some (data : List ℚ) (fs hop : ℤ) (hhop : 1 ≤ hop) :
    ∀ (fuel : ℕ) (i : ℤ) (acc : List (List ℚ)),
      (if i + fs ≤ (data.length : ℤ) then
        (((data.length : ℤ) - fs - i) / hop + 1).toNat else 0) ≤ fuel →
      ∃ frames, createFramesAux data fs hop fuel i acc = some frames ∧
        frames.length = acc.length +
          (if i + fs ≤ (data.length : ℤ) then
            (((data.length : ℤ) - fs - i) / hop + 1).toNat else 0) := by
  intro fuel
  induction fuel with
  | zero =>
    intro i acc hR
    by_cases hc : i + fs ≤ (data.length : ℤ)
    · exfalso
      rw [if_pos hc] at hR
      have hq : 0 ≤ ((data.length : ℤ) - fs - i) / hop :=
        Int.ediv_nonneg (by omega) (by omega)
      omega
    · rw [if_neg hc] at hR ⊢
      exact ⟨acc, by rw [createFramesAux, if_neg hc], by omega⟩
  | succ f ih =>
    intro i acc hR
    by_cases hc : i + fs ≤ (data.length : ℤ)
    · rw [if_pos hc] at hR
      have hq : 0 ≤ ((data.length : ℤ) - fs - i) / hop :=
        Int.ediv_nonneg (by omega) (by omega)
      have hstep : ((data.length : ℤ) - fs - (i + hop)) / hop =
          ((data.length : ℤ) - fs - i) / hop - 1 := by
        have harg : (data.length : ℤ) - fs - (i + hop) =
            ((data.length : ℤ) - fs - i) + (-1) * hop := by ring
        rw [harg, Int.add_mul_ediv_right _ _ (by omega : hop ≠ 0)]
        ring
      have htn : (((data.length : ℤ) - fs - i) / hop + 1).toNat =
          (((data.length : ℤ) - fs - i) / hop).toNat + 1 :=
        Int.toNat_add hq (by norm_num)
      rw [htn] at hR
      have hfuel : (((data.length : ℤ) - fs - i) / hop).toNat ≤ f :=
        Nat.succ_le_succ_iff.mp hR
      have hrec := ih (i + hop) (acc ++ [(data.drop i.toNat).take fs.toNat])
      by_cases hc2 : (i + hop) + fs ≤ (data.length : ℤ)
      · rw [if_pos hc2, hstep, sub_add_cancel] at hrec
        obtain ⟨frames, heq, hlen⟩ := hrec hfuel
        simp only [List.length_append, List.length_cons, List.length_nil] at hlen
        refine ⟨frames, ?_, ?_⟩
        · rw [createFramesAux, if_pos hc]
          exact heq
        · rw [if_pos hc, htn, hlen]
          ring
      · rw [if_neg hc2] at hrec
        obtain ⟨frames, heq, hlen⟩ := hrec (Nat.zero_le f)
        simp only [List.length_append, List.length_cons, List.length_nil,
          Nat.add_zero] at hlen
        have hq0 : ((data.length : ℤ) - fs - i) / hop = 0 :=
          Int.ediv_eq_zero_of_lt (by omega) (by omega)
        refine ⟨frames, ?_, ?_⟩
        · rw [createFramesAux, if_pos hc]
          exact heq
        · rw [if_pos hc, htn, hq0, hlen]
          simp
    · rw [if_neg hc] at hR ⊢
      exact ⟨acc, by rw [createFramesAux, if_neg hc], by omega⟩

/-- For `hopSize ≤ 0` with enough data the loop condition never fails from a
non-positive index: no fuel bound suffices, i.e. the loop never terminates. -/
theorem createFramesAux_none (data : List ℚ) (fs hop : ℤ) (hhop : hop ≤ 0)
    (hfs : fs ≤ (data.length : ℤ)) :
    ∀ (fuel : ℕ) (i : ℤ), i ≤ 0 → ∀ acc,
      createFramesAux data fs hop fuel i acc = none := by
  intro fuel
  induction fuel with
  | zero =>
    intro i hi acc
    rw [createFramesAux, if_pos (by omega)]
  | succ f ih =>
    intro i hi acc
    rw [createFramesAux, if_pos (by omega)]
    exact ih (i + hop) (by omega) _

/-- C10: `createFrames` terminates for every `hopSize ≥ 1` with
`⌊(data.length - frameSize) / hopSize⌋ + 1` frames when the data is at
least one frame long (zero frames otherwise), while for `hopSize ≤ 0` with
`data.length ≥ frameSize` the loop never terminates, whatever the fuel. -/
theorem createFrames_spec (data : List ℚ) (frameSize hopSize : ℤ) :
    if 1 ≤ hopSize then
      ∃ frames, createFrames data frameSize hopSize = some frames ∧
        frames.length =
          (if frameSize ≤ (data.length : ℤ) then
            (((data.length : ℤ) - frameSize) / hopSize + 1).toNat
          else 0)
    else if frameSize ≤ (data.length : ℤ) then
      ∀ (fuel : ℕ) (acc : List (List ℚ)),
        createFramesAux data frameSize hopSize fuel 0 acc = none
    else True := by
  split
  next hhop =>
    unfold createFrames
    have h := createFramesAux_some data frameSize hopSize hhop
      ((data.length : ℤ) - frameSize + 2).toNat 0 []
    have hzero : (0 : ℤ) + frameSize = frameSize := by ring
    by_cases hfs : frameSize ≤ (data.length : ℤ)
    · have hcond : (0 : ℤ) + frameSize ≤ (data.length : ℤ) := by omega
      rw [if_pos hcond] at h
      have hq : 0 ≤ ((data.length : ℤ) - frameSize - 0) / hopSize :=
        Int.ediv_nonneg (by omega) (by omega)
      have hle : ((data.length : ℤ) - frameSize - 0) / hopSize ≤
          (data.length : ℤ) - frameSize - 0 :=
        Int.ediv_le_self _ (by omega)
      obtain ⟨frames, heq, hlen⟩ := h (by omega)
      refine ⟨frames, heq, ?_⟩
      rw [hlen, if_pos hfs]
      simp only [List.length_nil, Nat.zero_add, sub_zero]
    · have hcond : ¬((0 : ℤ) + frameSize ≤ (data.length : ℤ)) := by omega
      rw [if_neg hcond] at h
      obtain ⟨frames, heq, hlen⟩ := h (Nat.zero_le _)
      refine ⟨frames, heq, ?_⟩
      rw [hlen, if_neg hfs]
      rfl
  next hhop =>
    split
    next hfs =>
      intro fuel acc
      exact createFramesAux_none data frameSize hopSize (by omega) hfs fuel 0
        le_rfl acc
    next => trivial

-- ── Claim C4: harmony for a single note over a C-major chord ──

/-- The best-candidate fold only ever returns elements drawn from the
initial accumulator or the scanned list. -/
theorem selectBest_mem_aux (f : ℤ → ℚ) (S : List ℤ) :
    ∀ (l : List ℤ) (acc : ℤ × WithBot ℚ), acc.1 ∈ S → (∀ x ∈ l, x ∈ S) →
      (l.foldl (fun acc c => if acc.2 < ((f c : ℚ) : WithBot ℚ)
        then (c, ((f c : ℚ) : WithBot ℚ)) else acc) acc).1 ∈ S := by
  intro l
  induction l with
  | nil => intro acc h _; simpa using h
  | cons c t ih =>
    intro acc hacc hl
    rw [List.foldl_cons]
    apply ih
    · by_cases hlt : acc.2 < ((f c : ℚ) : WithBot ℚ)
      · rw [if_pos hlt]
        exact hl c (by simp)
      · rw [if_neg hlt]
        exact hacc
    · intro x hx
      exact hl x (by simp [hx])

/-- The selected best candidate belongs to the candidate list. -/
theorem selectBest_mem (cands : List ℤ) (f : ℤ → ℚ) (h : cands ≠ []) :
    selectBest cands f ∈ cands := by
  unfold selectBest
  apply selectBest_mem_aux f cands cands
  · cases cands with
    | nil => exact absurd rfl h
    | cons a t => simp
  · intro x hx
    exact hx

/-- C4: one melody note whose start lies inside a C-major chord's interval,
alto voice, `preferAbove = false`: exactly one harmony note is produced,
its MIDI number lies in [55, 76], its pitch class is C, E or G, and it is
never in unison with the melody note. -/
theorem generateHarmonyLine_single (m : MelodyNote) (c : ChordWithFunction)
    (hroot : c.root = .C) (hqual : c.quality = .major)
    (h1 : c.startBeat ≤ m.startBeat)
    (h2 : m.startBeat < c.startBeat + c.duration) :
    (generateHarmonyLine [m] [c] ⟨.choir, .alto, false⟩).length = 1 ∧
      55 ≤ ((generateHarmonyLine [m] [c]
        ⟨.choir, .alto, false⟩).headD defaultNote).midiNumber ∧
      ((generateHarmonyLine [m] [c]
        ⟨.choir, .alto, false⟩).headD defaultNote).midiNumber ≤ 76 ∧
      (((generateHarmonyLine [m] [c]
          ⟨.choir, .alto, false⟩).headD defaultNote).name = .C ∨
        ((generateHarmonyLine [m] [c]
          ⟨.choir, .alto, false⟩).headD defaultNote).name = .E ∨
        ((generateHarmonyLine [m] [c]
          ⟨.choir, .alto, false⟩).headD defaultNote).name = .G) ∧
      ((generateHarmonyLine [m] [c]
        ⟨.choir, .alto, false⟩).headD defaultNote).midiNumber ≠
        m.midiNumber := by
  have hfind : findActiveChord [c] m.startBeat = some c := by
    unfold findActiveChord
    simp [List.find?, h1, h2]
  have hne : ([60, 72, 64, 76, 55, 67] : List ℤ).filter
      (fun midi => decide (midi ≠ m.midiNumber)) ≠ [] := by
    intro hnil
    rw [List.filter_eq_nil_iff] at hnil
    have h60 := hnil 60 (by simp)
    have h72 := hnil 72 (by simp)
    simp only [decide_not, Bool.not_eq_true', decide_eq_false_iff_not,
      Decidable.not_not] at h60 h72
    omega
  have hgen : ∀ f : ℤ → ℚ,
      ([midiToNoteObj (selectBest (([60, 72, 64, 76, 55, 67] : List ℤ).filter
          (fun midi => decide (midi ≠ m.midiNumber))) f)
        m.startBeat m.duration] : List Note).length = 1 ∧
      55 ≤ (([midiToNoteObj (selectBest (([60, 72, 64, 76, 55, 67] : List ℤ).filter
          (fun midi => decide (midi ≠ m.midiNumber))) f)
        m.startBeat m.duration] : List Note).headD defaultNote).midiNumber ∧
      (([midiToNoteObj (selectBest (([60, 72, 64, 76, 55, 67] : List ℤ).filter
          (fun midi => decide (midi ≠ m.midiNumber))) f)
        m.startBeat m.duration] : List Note).headD defaultNote).midiNumber ≤ 76 ∧
      ((([midiToNoteObj (selectBest (([60, 72, 64, 76, 55, 67] : List ℤ).filter
          (fun midi => decide (midi ≠ m.midiNumber))) f)
        m.startBeat m.duration] : List Note).headD defaultNote).name = .C ∨
        (([midiToNoteObj (selectBest (([60, 72, 64, 76, 55, 67] : List ℤ).filter
          (fun midi => decide (midi ≠ m.midiNumber))) f)
        m.startBeat m.duration] : List Note).headD defaultNote).name = .E ∨
        (([midiToNoteObj (selectBest (([60, 72, 64, 76, 55, 67] : List ℤ).filter
          (fun midi => decide (midi ≠ m.midiNumber))) f)
        m.startBeat m.duration] : List Note).headD defaultNote).name = .G) ∧
      (([midiToNoteObj (selectBest (([60, 72, 64, 76, 55, 67] : List ℤ).filter
          (fun midi => decide (midi ≠ m.midiNumber))) f)
        m.startBeat m.duration] : List Note).headD defaultNote).midiNumber ≠
        m.midiNumber := by
    intro f
    have hb := selectBest_mem _ f hne
    rw [List.mem_filter] at hb
    obtain ⟨hbm, hbne'⟩ := hb
    have hbne : selectBest (([60, 72, 64, 76, 55, 67] : List ℤ).filter
        (fun midi => decide (midi ≠ m.midiNumber))) f ≠ m.midiNumber :=
      of_decide_eq_true hbne'
    simp only [List.mem_cons, List.not_mem_nil, or_false] at hbm
    rcases hbm with h | h | h | h | h | h <;> rw [h] at hbne ⊢
    · exact ⟨rfl, show (55 : ℤ) ≤ 60 by decide, show (60 : ℤ) ≤ 76 by decide,
        Or.inl (show (midiToNote (60 : ℤ)).1 = .C by decide), hbne⟩
    · exact ⟨rfl, show (55 : ℤ) ≤ 72 by decide, show (72 : ℤ) ≤ 76 by decide,
        Or.inl (show (midiToNote (72 : ℤ)).1 = .C by decide), hbne⟩
    · exact ⟨rfl, show (55 : ℤ) ≤ 64 by decide, show (64 : ℤ) ≤ 76 by decide,
        Or.inr (Or.inl (show (midiToNote (64 : ℤ)).1 = .E by decide)), hbne⟩
    · exact ⟨rfl, show (55 : ℤ) ≤ 76 by decide, show (76 : ℤ) ≤ 76 by decide,
        Or.inr (Or.inl (show (midiToNote (76 : ℤ)).1 = .E by decide)), hbne⟩
    · exact ⟨rfl, show (55 : ℤ) ≤ 55 by decide, show (55 : ℤ) ≤ 76 by decide,
        Or.inr (Or.inr (show (midiToNote (55 : ℤ)).1 = .G by decide)), hbne⟩
    · exact ⟨rfl, show (55 : ℤ) ≤ 67 by decide, show (67 : ℤ) ≤ 76 by decide,
        Or.inr (Or.inr (show (midiToNote (67 : ℤ)).1 = .G by decide)), hbne⟩
  unfold generateHarmonyLine
  simp only [harmonyGo, hfind, VOICE_RANGES]
  rw [hroot, hqual]
  rw [show getCandidatePitches (getChordNotes .C .major) 55 76 =
    ([60, 72, 64, 76, 55, 67] : List ℤ) from by decide]
  rw [if_neg hne]
  exact hgen _

/-- C4 witness: the hypotheses hold and the conclusion follows at the
concrete A4 melody note over the concrete C-major chord. -/
theorem generateHarmonyLine_single_witness :
    witnessChord.root = .C ∧ witnessChord.quality = .major ∧
      witnessChord.startBeat ≤ witnessNote.startBeat ∧
      witnessNote.startBeat < witnessChord.startBeat + witnessChord.duration ∧
      ((generateHarmonyLine [witnessNote] [witnessChord]
          ⟨.choir, .alto, false⟩).length = 1 ∧
        55 ≤ ((generateHarmonyLine [witnessNote] [witnessChord]
          ⟨.choir, .alto, false⟩).headD defaultNote).midiNumber ∧
        ((generateHarmonyLine [witnessNote] [witnessChord]
          ⟨.choir, .alto, false⟩).headD defaultNote).midiNumber ≤ 76 ∧
        (((generateHarmonyLine [witnessNote] [witnessChord]
            ⟨.choir, .alto, false⟩).headD defaultNote).name = .C ∨
          ((generateHarmonyLine [witnessNote] [witnessChord]
            ⟨.choir, .alto, false⟩).headD defaultNote).name = .E ∨
          ((generateHarmonyLine [witnessNote] [witnessChord]
            ⟨.choir, .alto, false⟩).headD defaultNote).name = .G) ∧
        ((generateHarmonyLine [witnessNote] [witnessChord]
          ⟨.choir, .alto, false⟩).headD defaultNote).midiNumber ≠
          witnessNote.midiNumber) :=
  ⟨rfl, rfl, by norm_num [witnessChord, witnessNote],
    by norm_num [witnessChord, witnessNote],
    generateHarmonyLine_single witnessNote witnessChord rfl rfl
      (by norm_num [witnessChord, witnessNote])
      (by norm_num [witnessChord, witnessNote])⟩

end HarmonyCoach
